import Mathlib

set_option maxHeartbeats 1000000

namespace Carrefour

/-!
Shallow embedding of the Carrefour invoice parser (`invoice_parser.py`) and the
CSV merge utility (`merge_csv.py`).

Python regular expressions are embedded as abstract syntax trees (`Rx`) together
with a backtracking matcher (`mmatch`) that mirrors the semantics of the Python
`re` module for exactly the constructs used by the source patterns: ordered
alternation, greedy and lazy repetition over character classes, bounded
repetition, optional groups, capture groups, and the end-of-string anchor.
-/

inductive Rx where
  | eps
  | cls (p : Char → Bool)
  | eos
  | seq (a b : Rx)
  | alt (a b : Rx)
  | opt (a : Rx)
  | starG (p : Char → Bool)
  | plusG (p : Char → Bool)
  | plusL (p : Char → Bool)
  | repR (p : Char → Bool) (lo hi : Nat)
  | group (i : Nat) (a : Rx)

abbrev Caps := List (Nat × List Char)

/-- Length of the maximal run of characters satisfying `p` at the head. -/
def runLen (p : Char → Bool) : List Char → Nat
  | [] => 0
  | c :: t => if p c then runLen p t + 1 else 0

/-- `[hi, hi-1, ..., lo]`, empty when `hi < lo`: greedy candidate counts. -/
def rangeDesc (hi lo : Nat) : List Nat :=
  if hi < lo then [] else (List.range (hi - lo + 1)).map (fun k => hi - k)

/-- `[lo, lo+1, ..., hi]`, empty when `hi < lo`: lazy candidate counts. -/
def rangeAsc (lo hi : Nat) : List Nat :=
  if hi < lo then [] else (List.range (hi - lo + 1)).map (fun k => lo + k)

def firstSome {α : Type} : List Nat → (Nat → Option α) → Option α
  | [], _ => none
  | j :: js, f =>
    match f j with
    | some x => some x
    | none => firstSome js f

/-- Backtracking matcher in continuation-passing style.  `mmatch r s caps k`
attempts to match `r` against a prefix of `s`; on each locally successful
parse it calls `k` with the remaining input and the capture list, and
backtracks (tries the next alternative) whenever `k` returns `none`.  This is
the leftmost, priority-ordered backtracking semantics of Python `re`.  `eos`
mirrors `$` (end of input, or just before a single final newline). -/
def mmatch {α : Type} : Rx → List Char → Caps → (List Char → Caps → Option α) → Option α
  | .eps, s, caps, k => k s caps
  | .cls p, s, caps, k =>
    match s with
    | [] => none
    | c :: t => if p c then k t caps else none
  | .eos, s, caps, k => if s = [] || s = ['\n'] then k s caps else none
  | .seq a b, s, caps, k => mmatch a s caps (fun s1 c1 => mmatch b s1 c1 k)
  | .alt a b, s, caps, k =>
    match mmatch a s caps k with
    | some r => some r
    | none => mmatch b s caps k
  | .opt a, s, caps, k =>
    match mmatch a s caps k with
    | some r => some r
    | none => k s caps
  | .starG p, s, caps, k => firstSome (rangeDesc (runLen p s) 0) (fun j => k (s.drop j) caps)
  | .plusG p, s, caps, k => firstSome (rangeDesc (runLen p s) 1) (fun j => k (s.drop j) caps)
  | .plusL p, s, caps, k => firstSome (rangeAsc 1 (runLen p s)) (fun j => k (s.drop j) caps)
  | .repR p lo hi, s, caps, k => firstSome (rangeDesc (min (runLen p s) hi) lo) (fun j => k (s.drop j) caps)
  | .group i a, s, caps, k => mmatch a s caps (fun s1 c1 => k s1 ((i, s.take (s.length - s1.length)) :: c1))

/-- `re.match`: anchored at the start of the string, returns captures. -/
def reMatch (r : Rx) (s : List Char) : Option Caps :=
  mmatch r s [] (fun _ c => some c)

/-- Anchored match returning the unconsumed suffix (used for `re.sub` with an
`^`-anchored pattern: the matched prefix is deleted). -/
def rePrefixRest (r : Rx) (s : List Char) : Option (List Char) :=
  mmatch r s [] (fun rest _ => some rest)

/-- `re.search`: try the anchored match at every start position, left to
right, and return the captures of the first position that succeeds. -/
def reSearch (r : Rx) : List Char → Option Caps
  | [] => reMatch r []
  | c :: t =>
    match reMatch r (c :: t) with
    | some cp => some cp
    | none => reSearch r t

def capGet (caps : Caps) (i : Nat) : List Char :=
  match caps.lookup i with
  | some v => v
  | none => []

/-! Character classes used by the source patterns. -/

/-- Python `\d` restricted to the ASCII digits that occur in receipts. -/
def isDig (c : Char) : Bool := '0' ≤ c && c ≤ '9'

/-- Python `\s` (ASCII whitespace). -/
def pyWS (c : Char) : Bool :=
  c = ' ' || c = '\t' || c = '\n' || c = '\r' || c = '\x0B' || c = '\x0C'

/-- Python `[.,]`. -/
def isDC (c : Char) : Bool := c = '.' || c = ','

/-- Python `str.lower` on the characters occurring in the source data. -/
def pyLowerChar (c : Char) : Char :=
  if 'A' ≤ c && c ≤ 'Z' then Char.ofNat (c.toNat + 32)
  else if c = 'À' then 'à'
  else if c = 'É' then 'é'
  else if c = 'È' then 'è'
  else if c = 'Ê' then 'ê'
  else if c = 'Î' then 'î'
  else if c = 'Ô' then 'ô'
  else if c = 'Û' then 'û'
  else if c = 'Ç' then 'ç'
  else c

def pyLower (s : String) : String := ⟨s.data.map pyLowerChar⟩

/-- Literal character (case-sensitive). -/
def litc (c : Char) : Rx := .cls (fun x => x = c)

/-- Literal character under `re.IGNORECASE` (`c` is given in lowercase). -/
def litci (c : Char) : Rx := .cls (fun x => pyLowerChar x = c)

/-- Right-nested sequence of a pattern list. -/
def seqL (l : List Rx) : Rx := l.foldr .seq .eps

/-- `l1` is a prefix of `l2` (Python `str.startswith`, on char lists). -/
def listIsPre : List Char → List Char → Bool
  | [], _ => true
  | _ :: _, [] => false
  | a :: as1, b :: bs => a = b && listIsPre as1 bs

/-- Python `str.startswith`. -/
def startsw (s pre : String) : Bool := listIsPre pre.data s.data

/-- Python `str.strip` on char lists. -/
def pyStripL (s : List Char) : List Char :=
  ((s.dropWhile pyWS).reverse.dropWhile pyWS).reverse

/-- Python `str.strip`. -/
def pyStrip (s : String) : String := ⟨pyStripL s.data⟩

/-- `normalize_decimal` on char lists: `s.replace(",", ".")`. -/
def normChars (s : List Char) : List Char :=
  s.map (fun c => if c = ',' then '.' else c)

/-- `normalize_decimal(s)`: replaces every comma with a dot. -/
def normalize_decimal (s : String) : String := ⟨normChars s.data⟩

/-- Scanner state for `collapseWs`: outside a whitespace run, after exactly
one pending whitespace character, or inside a run of length at least two. -/
inductive CwSt where
  | out
  | pend (c : Char)
  | run

/-- `re.sub(r"\s{2,}", " ", s)` as a left-to-right scan: every run of two or
more whitespace characters becomes a single space; a single whitespace
character is kept as it is. -/
def cwGo : CwSt → List Char → List Char
  | .out, [] => []
  | .pend c, [] => [c]
  | .run, [] => [' ']
  | .out, c :: t => if pyWS c then cwGo (.pend c) t else c :: cwGo .out t
  | .pend p, c :: t => if pyWS c then cwGo .run t else p :: c :: cwGo .out t
  | .run, c :: t => if pyWS c then cwGo .run t else ' ' :: c :: cwGo .out t

def collapseWs (s : List Char) : List Char := cwGo .out s

instance {ε α : Type} [DecidableEq ε] [DecidableEq α] : DecidableEq (Except ε α) := fun a b =>
  match a, b with
  | .error e, .error f =>
    if h : e = f then isTrue (by rw [h]) else isFalse (fun hh => h (Except.error.inj hh))
  | .ok x, .ok y =>
    if h : x = y then isTrue (by rw [h]) else isFalse (fun hh => h (Except.ok.inj hh))
  | .error _, .ok _ => isFalse (fun hh => Except.noConfusion hh)
  | .ok _, .error _ => isFalse (fun hh => Except.noConfusion hh)

/-! The source patterns of `invoice_parser.py`, embedded as `Rx` terms. -/

/-- `\d+(?:[.,]\d+)?` -/
def numRx : Rx := seqL [.plusG isDig, .opt (seqL [.cls isDC, .plusG isDig])]

/-- `PRICE_KG_RE`:
`^\s*(?P<weight>\d+(?:[.,]\d+)?)\s*kg\s*x\s*(?P<price>\d+(?:[.,]\d+)?)\s*€\s*/\s*kg\s*$`
with `re.IGNORECASE`; group 1 = weight, group 2 = price. -/
def PRICE_KG_RE : Rx := seqL [
  .starG pyWS, .group 1 numRx, .starG pyWS,
  litci 'k', litci 'g', .starG pyWS, litci 'x', .starG pyWS,
  .group 2 numRx, .starG pyWS, litc '€', .starG pyWS, litc '/', .starG pyWS,
  litci 'k', litci 'g', .starG pyWS, .eos]

/-- `\d+(?:[.,]\d{1,2})?` -/
def num2Rx : Rx := seqL [.plusG isDig, .opt (seqL [.cls isDC, .repR isDig 1 2])]

/-- The optional leading discount token of `PRODUCT_RE`:
`(?:(?:\d{1,2}(?:[.,]\d)?|[0-9]{1,2})\s*%|\d{1,2}\.\d{1,2}\s*%)?` -/
def pctTokenRx : Rx :=
  .opt (.alt
    (seqL [.alt (seqL [.repR isDig 1 2, .opt (seqL [.cls isDC, .cls isDig])]) (.repR isDig 1 2),
           .starG pyWS, litc '%'])
    (seqL [.repR isDig 1 2, litc '.', .repR isDig 1 2, .starG pyWS, litc '%']))

/-- `PRODUCT_RE` with `re.IGNORECASE`; group 1 = name, 2 = qty, 3 = unit,
4 = amount. -/
def PRODUCT_RE : Rx := seqL [
  .starG pyWS, pctTokenRx, .starG pyWS,
  .group 1 (.plusL (fun c => c != '\n')),
  .plusG pyWS,
  .group 2 (.plusG isDig),
  .starG pyWS, litci 'x', .starG pyWS,
  .group 3 num2Rx,
  .plusG pyWS,
  .group 4 (seqL [.opt (litc '-'), .plusG isDig, .opt (seqL [.cls isDC, .repR isDig 1 2])]),
  .starG pyWS, .eos]

/-- The name-cleanup pattern `^\s*\d{1,2}(?:[.,]\d{1,2})?\s*%\s*` used with
`re.sub` (deleting at most one anchored match). -/
def pctSubRx : Rx := seqL [
  .starG pyWS, .repR isDig 1 2, .opt (seqL [.cls isDC, .repR isDig 1 2]),
  .starG pyWS, litc '%', .starG pyWS]

/-- First entry of `DATE_RES`:
`(?P<d>\d{2})/(?P<m>\d{2})/(?P<y>\d{4})\s*(?:à\s*)?(?P<h>\d{1,2})[h:](?P<min>\d{2})`
with groups d=1, m=2, y=3, h=4, min=5. -/
def dateRx1 : Rx := seqL [
  .group 1 (.repR isDig 2 2), litc '/', .group 2 (.repR isDig 2 2), litc '/',
  .group 3 (.repR isDig 4 4), .starG pyWS, .opt (seqL [litc 'à', .starG pyWS]),
  .group 4 (.repR isDig 1 2), .cls (fun c => c = 'h' || c = ':'),
  .group 5 (.repR isDig 2 2)]

/-- Second entry of `DATE_RES`:
`(?P<d>\d{2})[.](?P<m>\d{2})[.](?P<y>\d{2,4})\s+(?P<h>\d{1,2})[:](?P<min>\d{2})`. -/
def dateRx2 : Rx := seqL [
  .group 1 (.repR isDig 2 2), litc '.', .group 2 (.repR isDig 2 2), litc '.',
  .group 3 (.repR isDig 2 4), .plusG pyWS,
  .group 4 (.repR isDig 1 2), litc ':', .group 5 (.repR isDig 2 2)]

def DATE_RES : List Rx := [dateRx1, dateRx2]

/-- The `SKIP_PREFIXES` tuple. -/
def SKIP_PREFIXES : List String := [
  "remise immédiate", "total", "taux tva", "détails de vos avantages",
  "avantages -10%", "ma carte", "€ crédités", "vignettes", "payé par",
  "tva produit", "carte bancaire"]

/-- `any(line_lower.startswith(p) for p in SKIP_PREFIXES)` applied to the
lowercased stripped line. -/
def noisy (line : String) : Bool :=
  SKIP_PREFIXES.any (fun p => startsw (pyLower line) p)

/-- Price-per-kg match and display string: on a `PRICE_KG_RE` match, the
normalized `f"{weight}kg x {price}€/kg"` string. -/
def wpFmtOf (line : String) : Option String :=
  match reMatch PRICE_KG_RE line.data with
  | some caps =>
    some (⟨normChars (capGet caps 1)⟩ ++ "kg x " ++ ⟨normChars (capGet caps 2)⟩ ++ "€/kg")
  | none => none

/-- Product match and field extraction: on a `PRODUCT_RE` match, the cleaned
name (strip, delete one anchored percent token, strip, collapse inner
whitespace runs), the `f"{qty} x {unit}"` string and the normalized amount. -/
def prodOf (line : String) : Option (String × String × String) :=
  match reMatch PRODUCT_RE line.data with
  | some caps =>
    let name0 := pyStripL (capGet caps 1)
    let name1 :=
      match rePrefixRest pctSubRx name0 with
      | some rest => pyStripL rest
      | none => pyStripL name0
    let name2 := collapseWs name1
    some (⟨name2⟩,
          ⟨capGet caps 2⟩ ++ " x " ++ ⟨normChars (capGet caps 3)⟩,
          ⟨normChars (capGet caps 4)⟩)
  | none => none

/-- The classification a raw line receives inside `parse_lines_to_rows`,
following the decision chain of the source in its exact order. -/
inductive LineClass where
  | blank
  | weightPrice (fmt : String)
  | noise
  | product (name qtePu amount : String)
  | unrecognized
deriving DecidableEq, Repr

/-- One dispatch per raw line, in the order of the source: strip; skip blank;
`PRICE_KG_RE`; `SKIP_PREFIXES`; `PRODUCT_RE`; otherwise unrecognized. -/
def classifyLine (raw : String) : LineClass :=
  let line := pyStrip raw
  if line = "" then .blank
  else
    match wpFmtOf line with
    | some f => .weightPrice f
    | none =>
      if noisy line then .noise
      else
        match prodOf line with
        | some (n, qe, a) => .product n qe a
        | none => .unrecognized

/-- One output row `(name, type, price-kg, QTE x P.U, amount, date)`. -/
structure ProductRecord where
  name : String
  ptype : String
  pricekg : String
  qte : String
  amount : String
  date : String
deriving DecidableEq, Repr

/-- `invoice_date or ""`. -/
def invDateStr : Option String → String
  | some d => d
  | none => ""

/-- Processing of one raw line: state is the pending price-per-kg queue and
the accumulated output rows.  A product match always pops the queue head
(empty string if the queue is empty) and then drops the row when the cleaned
name starts with `"remise"` (case-insensitively). -/
def parseStep (d : Option String) (st : List String × List ProductRecord) (raw : String) :
    List String × List ProductRecord :=
  match classifyLine raw with
  | .blank => st
  | .weightPrice f => (st.1 ++ [f], st.2)
  | .noise => st
  | .unrecognized => st
  | .product n qe a =>
    let pk := st.1.headD ("")
    let rest := st.1.tail
    if startsw (pyLower n) "remise" then (rest, st.2)
    else (rest, st.2 ++ [⟨n, "", pk, qe, a, invDateStr d⟩])

def parseAux (d : Option String) (st : List String × List ProductRecord)
    (lines : List String) : List String × List ProductRecord :=
  lines.foldl (parseStep d) st

/-- `parse_lines_to_rows(lines, invoice_date)`. -/
def parse_lines_to_rows (lines : List String) (invoice_date : Option String) :
    List ProductRecord :=
  (parseAux invoice_date ([], []) lines).2

/-! Date resolution (`find_date`) and the `datetime` range checks. -/

def digitsToNat (s : List Char) : Nat :=
  s.foldl (fun n c => n * 10 + (c.toNat - 48)) 0

def capNat (caps : Caps) (i : Nat) : Nat := digitsToNat (capGet caps i)

def isLeap (y : Nat) : Bool := y % 4 = 0 && (y % 100 ≠ 0 || y % 400 = 0)

def daysInMonth (y m : Nat) : Nat :=
  if m = 2 then (if isLeap y then 29 else 28)
  else if m = 4 || m = 6 || m = 9 || m = 11 then 30
  else 31

/-- The range checks `datetime(y, m, d, h, mi)` performs (it raises
`ValueError` outside these bounds). -/
def validDT (y m d h mi : Nat) : Bool :=
  1 ≤ y && y ≤ 9999 && 1 ≤ m && m ≤ 12 && 1 ≤ d && d ≤ daysInMonth y m &&
  h ≤ 23 && mi ≤ 59

def pad2 (n : Nat) : String := if n < 10 then ("0") ++ toString n else toString n

def pad4 (n : Nat) : String :=
  if n < 10 then ("000") ++ toString n
  else if n < 100 then ("00") ++ toString n
  else if n < 1000 then ("0") ++ toString n
  else toString n

/-- From the captures of a date match: two-digit years are promoted by adding
2000, the `datetime` constructor validates the fields (`.error ()` models
the `ValueError` it raises), and the result is `strftime("%d/%m/%Y")`. -/
def dateOfCaps (caps : Caps) : Except Unit String :=
  let d := capNat caps 1
  let m := capNat caps 2
  let y0 := capNat caps 3
  let y := if y0 < 100 then y0 + 2000 else y0
  let h := capNat caps 4
  let mi := capNat caps 5
  if validDT y m d h mi then .ok (pad2 d ++ "/" ++ pad2 m ++ "/" ++ pad4 y)
  else .error ()

def findDateGo (t : List Char) : List Rx → Except Unit (Option String)
  | [] => .ok none
  | rx :: rxs =>
    match reSearch rx t with
    | some caps => (dateOfCaps caps).map some
    | none => findDateGo t rxs

/-- `find_date(all_text)`: the patterns of `DATE_RES` are tried in list
order; the first pattern with a match anywhere decides the result.  `.ok
none` models the Python `None` (no pattern matched), `.error ()` the
`ValueError` escaping from `datetime`. -/
def find_date (all_text : String) : Except Unit (Option String) :=
  findDateGo all_text.data DATE_RES

/-- Python `str.split("\n")` on char lists. -/
def splitNL : List Char → List (List Char)
  | [] => [[]]
  | c :: t =>
    if c = '\n' then [] :: splitNL t
    else
      match splitNL t with
      | [] => [[c]]
      | l :: ls => (c :: l) :: ls

/-- `extract_pdf_to_rows`, starting from the already-decoded page text: the
date is resolved first (a `ValueError` escaping from `find_date` propagates
to the caller before any line is parsed), then the text is split on newlines
and fed to `parse_lines_to_rows`. -/
def extract_pdf_to_rows (all_text : String) : Except Unit (List ProductRecord) :=
  match find_date all_text with
  | .error e => .error e
  | .ok inv => .ok (parse_lines_to_rows ((splitNL all_text.data).map (fun l => ⟨l⟩)) inv)

/-! Embedding of `merge_csv.py`.  A parsed input file is its header (the
`fieldnames` of `csv.DictReader`, empty for an empty or headerless file) and
its rows as association lists.  The actual writing of the output file happens
only after every check has passed, so the `.ok` payload models the written
file and an `.error` result models an invocation that wrote nothing. -/

structure CsvFile where
  header : List String
  rows : List (List (String × String))
deriving DecidableEq, Repr

inductive MergeError where
  | schemaMismatch
  | missingColumn
deriving DecidableEq, Repr

/-- `rd.get(col, "")`. -/
def rdGet (rd : List (String × String)) (col : String) : String :=
  (rd.lookup col).getD ("")

/-- `set(h1) == set(h2)`. -/
def sameSet (h1 h2 : List String) : Bool :=
  h1.all (fun c => h2.contains c) && h2.all (fun c => h1.contains c)

/-- `[rd.get(col, "") for col in fh]`. -/
def reorderRow (fh : List String) (rd : List (String × String)) : List String :=
  fh.map (rdGet rd)

/-- The file loop of `merge_csv_folder`: a headerless file is skipped; the
first file with a header fixes `first_header`; later files must have the
same column set or the loop raises `ValueError` (SchemaMismatch); surviving
rows are reordered along `first_header` and concatenated. -/
def mergeLoop : List CsvFile → List String → List (List String) →
    Except MergeError (List String × List (List String))
  | [], fh, acc => .ok (fh, acc)
  | f :: fs, fh, acc =>
    if f.header = [] then mergeLoop fs fh acc
    else if fh = [] then mergeLoop fs f.header (acc ++ f.rows.map (reorderRow f.header))
    else if sameSet f.header fh then mergeLoop fs fh (acc ++ f.rows.map (reorderRow fh))
    else .error .schemaMismatch

/-- Order-preserving removal of exact duplicate rows (the `seen`-set pass). -/
def dedupeRows : List (List String) → List (List String) → List (List String)
  | _, [] => []
  | seen, r :: rs =>
    if seen.contains r then dedupeRows seen rs
    else r :: dedupeRows (r :: seen) rs

/-- Comparison used by `merged_rows.sort(key=lambda r: r[idx])`. -/
def rowLe (idx : Nat) (r1 r2 : List String) : Bool :=
  decide (r1.getD idx ("") ≤ r2.getD idx (""))

/-- Stable insertion keeping earlier rows before later rows of equal key. -/
def insertRow (idx : Nat) (r : List String) : List (List String) → List (List String)
  | [] => [r]
  | x :: xs => if rowLe idx x r then x :: insertRow idx r xs else r :: x :: xs

/-- Stable ascending sort by the key at column index `idx` (extensionally
equal to the stable Python `list.sort`). -/
def sortRows (idx : Nat) (rows : List (List String)) : List (List String) :=
  rows.foldl (fun acc r => insertRow idx r acc) []

/-- `merge_csv_folder` on already-read files: run the file loop, then
optionally dedupe, then — only when `sort_by` is truthy — require the sort
column to be in `first_header` (else `KeyError`, MissingColumn) and sort.
The output file is written only on `.ok`. -/
def merge_csv_folder (files : List CsvFile) (dedupe : Bool) (sortBy : Option String) :
    Except MergeError (List String × List (List String)) :=
  match mergeLoop files [] [] with
  | .error e => .error e
  | .ok (fh, rows) =>
    let rows1 := if dedupe then dedupeRows [] rows else rows
    match sortBy with
    | none => .ok (fh, rows1)
    | some c =>
      if c = "" then .ok (fh, rows1)
      else if fh.contains c then .ok (fh, sortRows (fh.indexOf c) rows1)
      else .error .missingColumn

/-! Derived notions used by the statements. -/

def isProdClass : LineClass → Bool
  | .product _ _ _ => true
  | _ => false

def isWpClass : LineClass → Bool
  | .weightPrice _ => true
  | _ => false

/-- The price-per-kg display strings enqueued by a line sequence. -/
def wpFmts (ls : List String) : List String :=
  ls.filterMap (fun l =>
    match classifyLine l with
    | .weightPrice f => some f
    | _ => none)

/-- The price-kg fields of a record list. -/
def recPks (rs : List ProductRecord) : List String := rs.map (fun r => r.pricekg)

/-! General lemmas about the classifier fold and the pending queue. -/

theorem parseAux_nil (d : Option String) (st : List String × List ProductRecord) :
    parseAux d st [] = st := rfl

theorem parseAux_cons (d : Option String) (st : List String × List ProductRecord)
    (l : String) (ls : List String) :
    parseAux d st (l :: ls) = parseAux d (parseStep d st l) ls := rfl

theorem parseAux_append (d : Option String) (st : List String × List ProductRecord)
    (xs ys : List String) :
    parseAux d st (xs ++ ys) = parseAux d (parseAux d st xs) ys := by
  simp [parseAux, List.foldl_append]

theorem parseStep_inert (d : Option String) (st : List String × List ProductRecord)
    (raw : String) (h1 : isWpClass (classifyLine raw) = false)
    (h2 : isProdClass (classifyLine raw) = false) : parseStep d st raw = st := by
  cases h : classifyLine raw <;> simp_all [parseStep, isWpClass, isProdClass]

theorem parseStep_wp (d : Option String) (q : List String) (out : List ProductRecord)
    (raw f : String) (h : classifyLine raw = .weightPrice f) :
    parseStep d (q, out) raw = (q ++ [f], out) := by
  simp [parseStep, h]

theorem parseStep_prod (d : Option String) (q : List String) (out : List ProductRecord)
    (raw n qe a : String) (h : classifyLine raw = .product n qe a)
    (hr : startsw (pyLower n) "remise" = false) :
    parseStep d (q, out) raw = (q.tail, out ++ [⟨n, "", q.headD (""), qe, a, invDateStr d⟩]) := by
  simp [parseStep, h, hr]

theorem parseStep_prod_remise (d : Option String) (q : List String)
    (out : List ProductRecord) (raw n qe a : String)
    (h : classifyLine raw = .product n qe a)
    (hr : startsw (pyLower n) "remise" = true) :
    parseStep d (q, out) raw = (q.tail, out) := by
  simp [parseStep, h, hr]

/-- Over lines none of which is classified as a product, the fold only
enqueues: the queue grows by the weight-price strings of the segment and the
output is untouched. -/
theorem parseAux_noProd (d : Option String) (out : List ProductRecord) :
    ∀ (ls : List String) (q : List String),
    (∀ l ∈ ls, isProdClass (classifyLine l) = false) →
    parseAux d (q, out) ls = (q ++ wpFmts ls, out) := by
  intro ls
  induction ls with
  | nil => intro q _; simp [parseAux, wpFmts]
  | cons l ls ih =>
    intro q h
    have hl := h l (List.mem_cons_self l ls)
    have hs : ∀ x ∈ ls, isProdClass (classifyLine x) = false :=
      fun x hx => h x (List.mem_cons_of_mem l hx)
    rw [parseAux_cons]
    cases hc : classifyLine l with
    | blank =>
      rw [parseStep_inert _ _ _ (by simp [isWpClass, hc]) (by simp [isProdClass, hc]), ih q hs]
      simp [wpFmts, List.filterMap_cons, hc]
    | noise =>
      rw [parseStep_inert _ _ _ (by simp [isWpClass, hc]) (by simp [isProdClass, hc]), ih q hs]
      simp [wpFmts, List.filterMap_cons, hc]
    | unrecognized =>
      rw [parseStep_inert _ _ _ (by simp [isWpClass, hc]) (by simp [isProdClass, hc]), ih q hs]
      simp [wpFmts, List.filterMap_cons, hc]
    | weightPrice f =>
      rw [parseStep_wp _ _ _ _ _ hc, ih _ hs]
      simp [wpFmts, List.filterMap_cons, hc]
    | product n qe a =>
      rw [hc] at hl
      simp [isProdClass] at hl

theorem parseAux_noProd_out (d : Option String) (out : List ProductRecord)
    (ls : List String) (q : List String)
    (h : ∀ l ∈ ls, isProdClass (classifyLine l) = false) :
    (parseAux d (q, out) ls).2 = out := by
  rw [parseAux_noProd d out ls q h]

/-- With no weight-price line in the segment, an empty queue stays empty:
product lines pop from the empty queue without effect. -/
theorem parseAux_noWp_queue (d : Option String) :
    ∀ (ls : List String) (out : List ProductRecord),
    (∀ l ∈ ls, isWpClass (classifyLine l) = false) →
    (parseAux d ([], out) ls).1 = [] := by
  intro ls
  induction ls with
  | nil => intro out _; simp [parseAux]
  | cons l ls ih =>
    intro out h
    have hl := h l (List.mem_cons_self l ls)
    have hs : ∀ x ∈ ls, isWpClass (classifyLine x) = false :=
      fun x hx => h x (List.mem_cons_of_mem l hx)
    rw [parseAux_cons]
    cases hc : classifyLine l with
    | weightPrice f =>
      rw [hc] at hl
      simp [isWpClass] at hl
    | product n qe a =>
      cases hr : startsw (pyLower n) "remise" with
      | true =>
        rw [parseStep_prod_remise _ _ _ _ _ _ _ hc hr]
        exact ih _ hs
      | false =>
        rw [parseStep_prod _ _ _ _ _ _ _ hc hr]
        exact ih _ hs
    | blank =>
      rw [parseStep_inert _ _ _ (by simp [isWpClass, hc]) (by simp [isProdClass, hc])]
      exact ih _ hs
    | noise =>
      rw [parseStep_inert _ _ _ (by simp [isWpClass, hc]) (by simp [isProdClass, hc])]
      exact ih _ hs
    | unrecognized =>
      rw [parseStep_inert _ _ _ (by simp [isWpClass, hc]) (by simp [isProdClass, hc])]
      exact ih _ hs

/-- Every record the fold appends carries the document date string. -/
theorem parseAux_dates (d : Option String) :
    ∀ (ls : List String) (q : List String) (out : List ProductRecord),
    (∀ r ∈ out, r.date = invDateStr d) →
    ∀ r ∈ (parseAux d (q, out) ls).2, r.date = invDateStr d := by
  intro ls
  induction ls with
  | nil => intro q out h r hr; exact h r hr
  | cons l ls ih =>
    intro q out h r hr
    rw [parseAux_cons] at hr
    cases hc : classifyLine l with
    | product n qe a =>
      cases hrm : startsw (pyLower n) "remise" with
      | true =>
        rw [parseStep_prod_remise _ _ _ _ _ _ _ hc hrm] at hr
        exact ih _ _ h r hr
      | false =>
        rw [parseStep_prod _ _ _ _ _ _ _ hc hrm] at hr
        refine ih _ _ ?_ r hr
        intro x hx
        rcases List.mem_append.mp hx with hx | hx
        · exact h x hx
        · simp only [List.mem_singleton] at hx
          subst hx
          rfl
    | weightPrice f =>
      rw [parseStep_wp _ _ _ _ _ hc] at hr
      exact ih _ _ h r hr
    | blank =>
      rw [parseStep_inert _ _ _ (by simp [isWpClass, hc]) (by simp [isProdClass, hc])] at hr
      exact ih _ _ h r hr
    | noise =>
      rw [parseStep_inert _ _ _ (by simp [isWpClass, hc]) (by simp [isProdClass, hc])] at hr
      exact ih _ _ h r hr
    | unrecognized =>
      rw [parseStep_inert _ _ _ (by simp [isWpClass, hc]) (by simp [isProdClass, hc])] at hr
      exact ih _ _ h r hr

/-- A nonempty value outside the queue, outside the accumulated price-kg
fields, and distinct from every weight-price string the remaining lines can
enqueue never shows up as the price-kg field of any record. -/
theorem parseAux_pk_fresh (d : Option String) :
    ∀ (ls : List String) (q : List String) (out : List ProductRecord) (v : String),
    v ≠ "" → v ∉ q → v ∉ recPks out →
    (∀ l ∈ ls, ∀ f, classifyLine l = .weightPrice f → f ≠ v) →
    v ∉ recPks (parseAux d (q, out) ls).2 := by
  intro ls
  induction ls with
  | nil => intro q out v _ _ hout _; exact hout
  | cons l ls ih =>
    intro q out v hv hq hout hwp
    have hwps : ∀ x ∈ ls, ∀ f, classifyLine x = .weightPrice f → f ≠ v :=
      fun x hx => hwp x (List.mem_cons_of_mem l hx)
    rw [parseAux_cons]
    cases hc : classifyLine l with
    | weightPrice f =>
      rw [parseStep_wp _ _ _ _ _ hc]
      refine ih _ _ _ hv ?_ hout hwps
      intro hmem
      rcases List.mem_append.mp hmem with hmem | hmem
      · exact hq hmem
      · simp only [List.mem_singleton] at hmem
        exact hwp l (List.mem_cons_self l ls) f hc hmem.symm
    | product n qe a =>
      have hq' : v ∉ q.tail := by
        intro hm
        cases q with
        | nil => cases hm
        | cons x xs => exact hq (List.mem_cons_of_mem x hm)
      have hpk : q.headD ("") ≠ v := by
        cases q with
        | nil => exact fun he => hv he.symm
        | cons x xs => exact fun he => hq (he ▸ List.mem_cons_self x xs)
      cases hrm : startsw (pyLower n) "remise" with
      | true =>
        rw [parseStep_prod_remise _ _ _ _ _ _ _ hc hrm]
        exact ih _ _ _ hv hq' hout hwps
      | false =>
        rw [parseStep_prod _ _ _ _ _ _ _ hc hrm]
        refine ih _ _ _ hv hq' ?_ hwps
        intro hmem
        simp only [recPks, List.map_append, List.map_cons, List.map_nil] at hmem
        rcases List.mem_append.mp hmem with hmem | hmem
        · exact hout hmem
        · simp only [List.mem_singleton] at hmem
          exact hpk hmem.symm
    | blank =>
      rw [parseStep_inert _ _ _ (by simp [isWpClass, hc]) (by simp [isProdClass, hc])]
      exact ih _ _ _ hv hq hout hwps
    | noise =>
      rw [parseStep_inert _ _ _ (by simp [isWpClass, hc]) (by simp [isProdClass, hc])]
      exact ih _ _ _ hv hq hout hwps
    | unrecognized =>
      rw [parseStep_inert _ _ _ (by simp [isWpClass, hc]) (by simp [isProdClass, hc])]
      exact ih _ _ _ hv hq hout hwps

/-! General lemmas about the merge loop. -/

/-- A headerless file anywhere in the input list is invisible to the loop. -/
theorem mergeLoop_skip (f : CsvFile) (fs2 : List CsvFile) (hf : f.header = []) :
    ∀ (fs1 : List CsvFile) (fh : List String) (acc : List (List String)),
    mergeLoop (fs1 ++ f :: fs2) fh acc = mergeLoop (fs1 ++ fs2) fh acc := by
  intro fs1
  induction fs1 with
  | nil => intro fh acc; simp [mergeLoop, hf]
  | cons g gs ih =>
    intro fh acc
    by_cases h1 : g.header = []
    · simp only [List.cons_append, mergeLoop, h1, if_true]
      exact ih _ _
    · by_cases h2 : fh = []
      · simp only [List.cons_append, mergeLoop, h1, if_false, h2, if_true]
        exact ih _ _
      · by_cases h3 : sameSet g.header fh = true
        · simp only [List.cons_append, mergeLoop, h1, if_false, h2, h3, if_true]
          exact ih _ _
        · simp only [List.cons_append, mergeLoop, h1, h2, h3]
          simp [h1, h2, h3]

/-- If the column set of some later file differs from the established header, the
loop raises the schema mismatch (all headers being nonempty). -/
theorem mergeLoop_mismatch :
    ∀ (fs : List CsvFile) (fh : List String) (acc : List (List String)),
    fh ≠ [] →
    (∀ f ∈ fs, f.header ≠ []) →
    (∃ f ∈ fs, sameSet f.header fh = false) →
    mergeLoop fs fh acc = .error .schemaMismatch := by
  intro fs
  induction fs with
  | nil =>
    intro fh acc _ _ hex
    rcases hex with ⟨f, hf, _⟩
    cases hf
  | cons g gs ih =>
    intro fh acc hfh hne hex
    have hg : g.header ≠ [] := hne g (List.mem_cons_self g gs)
    by_cases hs : sameSet g.header fh = true
    · simp only [mergeLoop, hg, if_false, hfh, hs, if_true]
      refine ih _ _ hfh (fun x hx => hne x (List.mem_cons_of_mem g hx)) ?_
      rcases hex with ⟨f, hf, hff⟩
      rcases List.mem_cons.mp hf with rfl | hf'
      · rw [hs] at hff; cases hff
      · exact ⟨f, hf', hff⟩
    · simp only [mergeLoop, hg, hfh, hs]
      simp [hg, hfh, hs]

/-- If the column set of every file agrees with the established header, the loop
succeeds and returns that header (all headers being nonempty). -/
theorem mergeLoop_ok :
    ∀ (fs : List CsvFile) (fh : List String) (acc : List (List String)),
    fh ≠ [] →
    (∀ f ∈ fs, sameSet f.header fh = true) →
    ∃ rows, mergeLoop fs fh acc = .ok (fh, rows) := by
  intro fs
  induction fs with
  | nil => intro fh acc _ _; exact ⟨acc, rfl⟩
  | cons g gs ih =>
    intro fh acc hfh hall
    have hg := hall g (List.mem_cons_self g gs)
    have hgs : ∀ x ∈ gs, sameSet x.header fh = true :=
      fun x hx => hall x (List.mem_cons_of_mem g hx)
    by_cases h1 : g.header = []
    · simp only [mergeLoop, h1, if_true]
      exact ih _ _ hfh hgs
    · simp only [mergeLoop, h1, if_false, hfh, hg, if_true]
      exact ih _ _ hfh hgs

/-! Claim theorems. -/

/-- Claim C1, counterexample: on the input lines of the claim the single
price-kg field of the single emitted record is not the claimed `"0.35kg x 12.50€/kg"`
(the capture keeps the trailing zero of `"0.350"`; `normalize_decimal` only
swaps the comma for a dot). -/
theorem claim_C1_counterexample :
    recPks (parse_lines_to_rows
      ["0.350 kg x 12,50 €/kg", "5% CHISTORRA REFLETS 1 x 4.70 4.70"] none) ≠
      ["0.35kg x 12.50€/kg"] := by
  decide

/-- Claim C1, amended: with no date, `parse_lines_to_rows` on
`["0.350 kg x 12,50 €/kg", "5% CHISTORRA REFLETS 1 x 4.70 4.70"]` emits
exactly one record, with name `"CHISTORRA REFLETS"`, price-kg
`"0.350kg x 12.50€/kg"`, quantity-times-unit `"1 x 4.70"` and amount
`"4.70"`. -/
theorem claim_C1_amended :
    parse_lines_to_rows
      ["0.350 kg x 12,50 €/kg", "5% CHISTORRA REFLETS 1 x 4.70 4.70"] none =
      [⟨"CHISTORRA REFLETS", "", "0.350kg x 12.50€/kg", "1 x 4.70", "4.70", ""⟩] := by
  decide

/-- Claim C2, counterexample: a text whose date substring matches a pattern
but is out of range (day 32) makes `extract_pdf_to_rows` fail as a whole,
yielding no records at all, even though its product line on its own would
yield a record - the product lines of the document are not processed. -/
theorem claim_C2_counterexample :
    extract_pdf_to_rows ("32/01/2024 à 14h32\n5% CHISTORRA REFLETS 1 x 4.70 4.70") =
      .error () ∧
    parse_lines_to_rows ["5% CHISTORRA REFLETS 1 x 4.70 4.70"] none ≠ [] := by
  exact ⟨by decide, by decide⟩

/-- Claim C2, amended: whenever date resolution fails with the InvalidDate
condition (`find_date` returns `.error`), the failure propagates out of
`extract_pdf_to_rows` to the caller and the lines of the document are never
parsed: the document yields no records. -/
theorem claim_C2_amended : ∀ t : String,
    find_date t = .error () → extract_pdf_to_rows t = .error () := by
  intro t h
  unfold extract_pdf_to_rows
  rw [h]

theorem claim_C2_witness :
    extract_pdf_to_rows ("32/01/2024 à 14h32") = .error () :=
  claim_C2_amended ("32/01/2024 à 14h32") (by decide)

/-- Claim C3, counterexample: a line whose cleaned name begins with
`"discount"` (case-insensitively) fully matches the product pattern and does
produce a record - only the `"remise"` spelling is filtered. -/
theorem claim_C3_counterexample :
    classifyLine ("Discount fidelite 1 x 2.00 -2.00") =
      .product ("Discount fidelite") "1 x 2.00" "-2.00" ∧
    startsw (pyLower ("Discount fidelite")) "discount" = true ∧
    parse_lines_to_rows ["Discount fidelite 1 x 2.00 -2.00"] none ≠ [] := by
  exact ⟨by decide, by decide, by decide⟩

/-- Claim C3, amended: a product-matched line whose cleaned name begins with
`"remise"` case-insensitively adds no record to the output, in any state
(names beginning with `"discount"` are not filtered). -/
theorem claim_C3_amended :
    ∀ (d : Option String) (q : List String) (out : List ProductRecord)
      (raw n qe a : String),
    classifyLine raw = .product n qe a →
    startsw (pyLower n) "remise" = true →
    (parseStep d (q, out) raw).2 = out := by
  intro d q out raw n qe a hc hr
  rw [parseStep_prod_remise _ _ _ _ _ _ _ hc hr]

theorem claim_C3_witness :
    (parseStep none (["0.350kg x 12.50€/kg"], []) "Remise fidélité 1 x 2.00 -2.00").2 =
      ([] : List ProductRecord) :=
  claim_C3_amended none ["0.350kg x 12.50€/kg"] [] "Remise fidélité 1 x 2.00 -2.00"
    "Remise fidélité" "1 x 2.00" "-2.00" (by decide) (by decide)

/-- Claim C4: pending weight-price values are consumed in strict FIFO order.
First part: if `w` is the first weight-price line of the document and `p` the
first product-matched line after it (with any interleaving of other lines,
including further weight-price lines in `mid`), the record emitted for `p`
carries the display string of `w`, and the remaining queue is exactly the
weight-price strings of `mid`.  Second part: a weight-price line with no
product-matched line after it contributes no record and removing it leaves
the output of the whole document unchanged. -/
theorem claim_C4 :
    (∀ (d : Option String) (pre : List String) (w f : String) (mid : List String)
       (p n qe a : String) (rest : List String),
      (∀ l ∈ pre, isWpClass (classifyLine l) = false) →
      classifyLine w = .weightPrice f →
      (∀ l ∈ mid, isProdClass (classifyLine l) = false) →
      classifyLine p = .product n qe a →
      startsw (pyLower n) "remise" = false →
      parse_lines_to_rows (pre ++ (w :: (mid ++ (p :: rest)))) d =
        (parseAux d (wpFmts mid,
          (parseAux d ([], []) pre).2 ++ [⟨n, "", f, qe, a, invDateStr d⟩]) rest).2)
  ∧ (∀ (d : Option String) (pre : List String) (w : String) (post : List String),
      isWpClass (classifyLine w) = true →
      (∀ l ∈ post, isProdClass (classifyLine l) = false) →
      parse_lines_to_rows (pre ++ (w :: post)) d = parse_lines_to_rows (pre ++ post) d) := by
  constructor
  · intro d pre w f mid p n qe a rest hpre hw hmid hp hr
    unfold parse_lines_to_rows
    rcases hst : parseAux d ([], []) pre with ⟨q0, out0⟩
    have hq0 : q0 = [] := by
      have h := parseAux_noWp_queue d pre [] hpre
      rw [hst] at h
      exact h
    subst hq0
    rw [parseAux_append, hst, parseAux_cons, parseStep_wp _ _ _ _ _ hw, parseAux_append,
        parseAux_noProd _ _ _ _ hmid, parseAux_cons, parseStep_prod _ _ _ _ _ _ _ hp hr]
    simp only [List.nil_append, List.singleton_append, List.tail_cons, List.headD_cons]
  · intro d pre w post hw hpost
    unfold parse_lines_to_rows
    rw [parseAux_append, parseAux_append]
    generalize parseAux d ([], []) pre = st
    obtain ⟨q, out⟩ := st
    cases hc : classifyLine w with
    | weightPrice f =>
      rw [parseAux_cons, parseStep_wp _ _ _ _ _ hc,
          parseAux_noProd_out _ _ _ _ hpost, parseAux_noProd_out _ _ _ _ hpost]
    | blank => rw [hc] at hw; simp [isWpClass] at hw
    | noise => rw [hc] at hw; simp [isWpClass] at hw
    | product n qe a => rw [hc] at hw; simp [isWpClass] at hw
    | unrecognized => rw [hc] at hw; simp [isWpClass] at hw

theorem claim_C4_witness :
    parse_lines_to_rows
      ["xx", "0.500 kg x 2,00 €/kg", "1.000 kg x 3,00 €/kg", "5% FROMAGE 1 x 9.99 9.99"]
      none =
      [⟨"FROMAGE", "", "0.500kg x 2.00€/kg", "1 x 9.99", "9.99", ""⟩] ∧
    parse_lines_to_rows
      ["5% FROMAGE 1 x 9.99 9.99", "0.500 kg x 2,00 €/kg", "Total 5"] none =
    parse_lines_to_rows ["5% FROMAGE 1 x 9.99 9.99", "Total 5"] none := by
  constructor
  · have h := claim_C4.1 none ["xx"] "0.500 kg x 2,00 €/kg" "0.500kg x 2.00€/kg"
      ["1.000 kg x 3,00 €/kg"] "5% FROMAGE 1 x 9.99 9.99" "FROMAGE" "1 x 9.99" "9.99" []
      (by decide) (by decide) (by decide) (by decide) (by decide)
    exact h.trans (by decide)
  · exact claim_C4.2 none ["5% FROMAGE 1 x 9.99 9.99"] "0.500 kg x 2,00 €/kg" ["Total 5"]
      (by decide) (by decide)

/-- Claim C5: a product-matched line always dequeues the queue head, even
when its cleaned name starts with `"remise"` and no record is emitted; the
dequeued value (if distinct from every other enqueueable value) appears on
no record of the rest of the document. -/
theorem claim_C5 :
    (∀ (d : Option String) (q : List String) (out : List ProductRecord)
       (v raw n qe a : String) (rest : List String),
      classifyLine raw = .product n qe a →
      startsw (pyLower n) "remise" = true →
      parseAux d (v :: q, out) (raw :: rest) = parseAux d (q, out) rest)
  ∧ (∀ (d : Option String) (q : List String) (out : List ProductRecord)
       (v raw n qe a : String) (rest : List String),
      classifyLine raw = .product n qe a →
      startsw (pyLower n) "remise" = true →
      v ≠ "" → v ∉ q → v ∉ recPks out →
      (∀ l ∈ rest, ∀ f, classifyLine l = .weightPrice f → f ≠ v) →
      v ∉ recPks (parseAux d (v :: q, out) (raw :: rest)).2) := by
  constructor
  · intro d q out v raw n qe a rest hc hr
    rw [parseAux_cons, parseStep_prod_remise _ _ _ _ _ _ _ hc hr]
    simp only [List.tail_cons]
  · intro d q out v raw n qe a rest hc hr hv hq hout hwp
    rw [parseAux_cons, parseStep_prod_remise _ _ _ _ _ _ _ hc hr]
    exact parseAux_pk_fresh d rest q out v hv hq hout hwp

theorem claim_C5_witness :
    parseAux none (["0.500kg x 2.00€/kg"], []) ["Remise fidélité 1 x 2.00 -2.00"] =
      (([] : List String), ([] : List ProductRecord)) ∧
    "0.500kg x 2.00€/kg" ∉ recPks
      (parseAux none (["0.500kg x 2.00€/kg"], []) ["Remise fidélité 1 x 2.00 -2.00"]).2 := by
  constructor
  · exact claim_C5.1 none [] [] "0.500kg x 2.00€/kg" "Remise fidélité 1 x 2.00 -2.00"
      "Remise fidélité" "1 x 2.00" "-2.00" [] (by decide) (by decide)
  · exact claim_C5.2 none [] [] "0.500kg x 2.00€/kg" "Remise fidélité 1 x 2.00 -2.00"
      "Remise fidélité" "1 x 2.00" "-2.00" [] (by decide) (by decide) (by decide)
      (by simp) (by simp [recPks]) (by simp)

/-- Claim C6: `find_date` tries the patterns of `DATE_RES` in their fixed
list order: whenever the first pattern matches anywhere in the text, the
result is computed from that match (wherever it occurs, and whatever the
second pattern would match); and on `"12.05.24 14:32"` (no slash-form date)
the two-digit year is promoted by adding 2000, yielding `"12/05/2024"`. -/
theorem claim_C6 :
    (∀ (t : String) (caps : Caps), reSearch dateRx1 t.data = some caps →
      find_date t = (dateOfCaps caps).map some)
  ∧ find_date ("12.05.24 14:32") = .ok (some ("12/05/2024")) := by
  constructor
  · intro t caps h
    simp [find_date, DATE_RES, findDateGo, h]
  · decide

theorem claim_C6_witness :
    find_date ("01.02.23 03:04 puis 12/05/2024 à 14h32") = .ok (some ("12/05/2024")) := by
  have h := claim_C6.1 ("01.02.23 03:04 puis 12/05/2024 à 14h32")
    [(5, ['3', '2']), (4, ['1', '4']), (3, ['2', '0', '2', '4']), (2, ['0', '5']), (1, ['1', '2'])]
    (by decide)
  exact h.trans (by decide)

/-- Claim C7: classification is a total function on lines into the five
classes, applied in the precedence order of the source: a nonblank line matching
the weight-price pattern is classified weight-price with no reference to the
product pattern; a nonblank, non-weight-price line with a noise prefix is
classified noise and leaves the state untouched (so it never yields a
record, even when it also matches the product pattern); and every line lands
in exactly one of the five classes. -/
theorem claim_C7 :
    (∀ raw : String, pyStrip raw = "" → classifyLine raw = .blank)
  ∧ (∀ (raw f : String), pyStrip raw ≠ "" → wpFmtOf (pyStrip raw) = some f →
      classifyLine raw = .weightPrice f)
  ∧ (∀ raw : String, pyStrip raw ≠ "" → wpFmtOf (pyStrip raw) = none →
      noisy (pyStrip raw) = true →
      classifyLine raw = .noise ∧
        ∀ (d : Option String) (st : List String × List ProductRecord),
          parseStep d st raw = st)
  ∧ (∀ raw : String, classifyLine raw = .blank ∨
      (∃ f, classifyLine raw = .weightPrice f) ∨ classifyLine raw = .noise ∨
      (∃ n qe a, classifyLine raw = .product n qe a) ∨
      classifyLine raw = .unrecognized) := by
  refine ⟨?_, ?_, ?_, ?_⟩
  · intro raw h
    simp [classifyLine, h]
  · intro raw f hne hwp
    simp [classifyLine, hne, hwp]
  · intro raw hne hwp hnz
    have hc : classifyLine raw = .noise := by simp [classifyLine, hne, hwp, hnz]
    exact ⟨hc, fun d st =>
      parseStep_inert d st raw (by simp [isWpClass, hc]) (by simp [isProdClass, hc])⟩
  · intro raw
    cases h : classifyLine raw with
    | blank => exact Or.inl rfl
    | weightPrice f => exact Or.inr (Or.inl ⟨f, rfl⟩)
    | noise => exact Or.inr (Or.inr (Or.inl rfl))
    | product n qe a => exact Or.inr (Or.inr (Or.inr (Or.inl ⟨n, qe, a, rfl⟩)))
    | unrecognized => exact Or.inr (Or.inr (Or.inr (Or.inr rfl)))

theorem claim_C7_witness :
    classifyLine ("0.350 kg x 12,50 €/kg") = .weightPrice ("0.350kg x 12.50€/kg") ∧
    prodOf (pyStrip ("Total à payer 1 x 42.10 42.10")) ≠ none ∧
    classifyLine ("Total à payer 1 x 42.10 42.10") = .noise ∧
    parseStep none (["w"], []) "Total à payer 1 x 42.10 42.10" = (["w"], []) := by
  refine ⟨?_, by decide, ?_, ?_⟩
  · exact claim_C7.2.1 ("0.350 kg x 12,50 €/kg") "0.350kg x 12.50€/kg" (by decide) (by decide)
  · exact (claim_C7.2.2.1 ("Total à payer 1 x 42.10 42.10") (by decide) (by decide) (by decide)).1
  · exact (claim_C7.2.2.1 ("Total à payer 1 x 42.10 42.10") (by decide) (by decide) (by decide)).2
      none (["w"], [])

/-- Claim C8: with every input file carrying a nonempty header, the merge
fails with SchemaMismatch as soon as the column set of some file differs from that
of the first file, and — when all column sets agree — with MissingColumn when a
(nonempty) requested sort column is not among the columns; in both cases the
result is the error alone, so no output is produced. -/
theorem claim_C8 :
    (∀ (f0 : CsvFile) (fs : List CsvFile) (d : Bool) (s : Option String),
      (∀ f ∈ f0 :: fs, f.header ≠ []) →
      (∃ f ∈ fs, sameSet f.header f0.header = false) →
      merge_csv_folder (f0 :: fs) d s = .error .schemaMismatch)
  ∧ (∀ (f0 : CsvFile) (fs : List CsvFile) (d : Bool) (c : String),
      (∀ f ∈ f0 :: fs, f.header ≠ []) →
      (∀ f ∈ fs, sameSet f.header f0.header = true) →
      c ≠ "" → f0.header.contains c = false →
      merge_csv_folder (f0 :: fs) d (some c) = .error .missingColumn) := by
  constructor
  · intro f0 fs d s hne hex
    have h0 : f0.header ≠ [] := hne f0 (List.mem_cons_self f0 fs)
    have hstep : mergeLoop (f0 :: fs) [] [] =
        mergeLoop fs f0.header (f0.rows.map (reorderRow f0.header)) := by
      simp [mergeLoop, h0]
    have hloop : mergeLoop (f0 :: fs) [] [] = .error .schemaMismatch := by
      rw [hstep]
      exact mergeLoop_mismatch fs f0.header _ h0
        (fun x hx => hne x (List.mem_cons_of_mem f0 hx)) hex
    unfold merge_csv_folder
    rw [hloop]
  · intro f0 fs d c hne hall hc hmem
    have h0 : f0.header ≠ [] := hne f0 (List.mem_cons_self f0 fs)
    have hstep : mergeLoop (f0 :: fs) [] [] =
        mergeLoop fs f0.header (f0.rows.map (reorderRow f0.header)) := by
      simp [mergeLoop, h0]
    obtain ⟨rows, hrows⟩ := mergeLoop_ok fs f0.header _ h0 hall
    unfold merge_csv_folder
    rw [hstep, hrows]
    simp [hc]
    simpa using hmem

theorem claim_C8_witness :
    merge_csv_folder [⟨["a"], []⟩, ⟨["b"], []⟩] false none = .error .schemaMismatch ∧
    merge_csv_folder [⟨["a"], []⟩] true (some ("z")) = .error .missingColumn := by
  constructor
  · exact claim_C8.1 ⟨["a"], []⟩ [⟨["b"], []⟩] false none (by decide) (by decide)
  · exact claim_C8.2 ⟨["a"], []⟩ [] true ("z") (by decide) (by decide) (by decide) (by decide)

/-- Claim C9: when no date pattern matches anywhere in the text, `find_date`
returns the empty no-date state (not a failure), and every record extracted
from that document carries an empty date field. -/
theorem claim_C9 : ∀ t : String,
    reSearch dateRx1 t.data = none → reSearch dateRx2 t.data = none →
    find_date t = .ok none ∧
    ∀ rs, extract_pdf_to_rows t = .ok rs → ∀ r ∈ rs, r.date = "" := by
  intro t h1 h2
  have hfd : find_date t = .ok none := by
    simp [find_date, DATE_RES, findDateGo, h1, h2]
  refine ⟨hfd, ?_⟩
  intro rs hrs r hr
  unfold extract_pdf_to_rows at hrs
  rw [hfd] at hrs
  simp only [Except.ok.injEq] at hrs
  rw [← hrs] at hr
  exact parseAux_dates none _ [] [] (fun x hx => absurd hx (List.not_mem_nil x)) r hr

theorem claim_C9_witness :
    find_date ("CARREFOUR MARKET\nTotal à payer 12.50") = .ok none := by
  exact (claim_C9 ("CARREFOUR MARKET\nTotal à payer 12.50") (by decide) (by decide)).1

/-- Claim C10: an input file with an empty header (empty or headerless CSV)
is invisible to the merge: it contributes no rows, does not establish the
output column order, and triggers no SchemaMismatch — the merge behaves
exactly as if the file were absent. -/
theorem claim_C10 :
    ∀ (fs1 : List CsvFile) (f : CsvFile) (fs2 : List CsvFile) (d : Bool)
      (s : Option String), f.header = [] →
    merge_csv_folder (fs1 ++ (f :: fs2)) d s = merge_csv_folder (fs1 ++ fs2) d s := by
  intro fs1 f fs2 d s hf
  unfold merge_csv_folder
  rw [mergeLoop_skip f fs2 hf fs1 [] []]

theorem claim_C10_witness :
    merge_csv_folder [⟨["a"], [[("a", "1")]]⟩, ⟨[], []⟩, ⟨["a"], [[("a", "2")]]⟩] false none =
    merge_csv_folder [⟨["a"], [[("a", "1")]]⟩, ⟨["a"], [[("a", "2")]]⟩] false none := by
  exact claim_C10 [⟨["a"], [[("a", "1")]]⟩] ⟨[], []⟩ [⟨["a"], [[("a", "2")]]⟩] false none rfl

end Carrefour
